import Mathlib

/-!
Verification of the known-value registry of this repository: the `KnownValue`
class, its CBOR codec, the `KnownValuesStore` bidirectional registry, and the
module-level constants.

Host conventions used by the embedding:
* a JavaScript `BigInt` is modelled as `Int`; a native number that holds an
  integer is also modelled as `Int` (the host conversion `Number(bigint)` is
  exact whenever the magnitude is at most `2^53`, which covers every range in
  which the code returns a native number);
* a JavaScript `Map` is modelled extensionally by its lookup function: the
  source observes its maps only through `get`, `set` and `delete`, never
  through iteration, so the function model captures every observation made;
* a JavaScript method that can `throw` is modelled with `Except`, and
  `undefined` results with `Option`.
-/

/-- The reserved known-value CBOR tag.  Modelled from the spec: the constant
is imported from an external components library (`KNOWN_VALUE.value`) and the
spec fixes it only as "a single fixed integer constant" that is part of the
wire format; its concrete numeral is immaterial to every claim. -/
def TAG_KNOWN_VALUE : Int := 40000

/-- A JavaScript numeric value as the codec sees it: either a native number
holding an integer, or an arbitrary-precision `BigInt`.  The two may carry the
same mathematical integer yet are distinguished by the host's strict equality
(`===`/`!==` between a number and a `BigInt` is always false). -/
inductive JSNum where
  | num (v : Int)
  | big (v : Int)
  deriving DecidableEq, Repr

/-- The mathematical integer carried by a `JSNum`, i.e. the effect of the
normalization `typeof x === 'bigint' ? x : BigInt(x)` applied by the source. -/
def JSNum.toInt : JSNum → Int
  | .num v => v
  | .big v => v

/-- A decoded CBOR item, restricted to the shapes the known-value codec
inspects: an unsigned-integer item, a tagged item wrapping an inner item, and
a catch-all for every other major type.  Modelled from the spec: the external
decoder yields a typed union exposing `type`, `value` and `tag` fields; the
design notes themselves ask for it to be read as a sum type. -/
inductive CborValue where
  | unsigned (v : JSNum)
  | tagged (tag : JSNum) (value : CborValue)
  | other
  deriving DecidableEq

/-- Whether the decoded item has the tagged major type (`MajorType.Tagged`). -/
def CborValue.isTagged : CborValue → Bool
  | .tagged _ _ => true
  | _ => false

/-- Whether the decoded item has the unsigned-integer major type
(`MajorType.Unsigned`). -/
def CborValue.isUnsigned : CborValue → Bool
  | .unsigned _ => true
  | _ => false

/-- Whether a fallible computation succeeded (no exception thrown). -/
def exceptIsOk {α : Type} : Except String α → Bool
  | .ok _ => true
  | .error _ => false

/-- A known value: an arbitrary-precision raw value plus an optional assigned
name (`_value` and `_assignedName` in the source). -/
structure KnownValue where
  rawValue : Int
  assignedName : Option String
  deriving DecidableEq, Repr

/-- The integer-like inputs the `KnownValue` constructor accepts: a native
integral number, a `BigInt`, or a numeric string. -/
inductive IntLike where
  | num (v : Int)
  | big (v : Int)
  | str (s : String)
  deriving DecidableEq

/-- Value of a list of decimal digit characters (most significant first), or
`none` if some character is not a decimal digit.  The empty list denotes 0,
matching the host conversion. -/
def decNat (cs : List Char) : Option Nat :=
  cs.foldl (fun acc c => acc.bind fun n =>
    if c.isDigit then some (n * 10 + (c.toNat - 48)) else none) (some 0)

/-- The host `BigInt(string)` conversion, restricted to optionally signed
decimal literals (a lone minus sign fails, as in the host; radix prefixes and
whitespace trimming are omitted — no claim exercises them). -/
def jsBigIntOfString (s : String) : Option Int :=
  match s.toList with
  | '-' :: [] => none
  | '-' :: cs => (decNat cs).map (fun n => -(n : Int))
  | cs => (decNat cs).map (fun n => (n : Int))

/-- The mathematical integer an integer-like input denotes, when it denotes
one. -/
def IntLike.val : IntLike → Option Int
  | .num v => some v
  | .big v => some v
  | .str s => jsBigIntOfString s

/-- The `KnownValue` constructor: a `BigInt` input is stored as is, any other
input is normalized through the host `BigInt(value)` conversion (which throws
on a malformed string — modelled by `Option`).  The constructor performs no
validation of non-negativity. -/
def KnownValue.make (value : IntLike) (assignedName : Option String) :
    Option KnownValue :=
  match value with
  | .big v => some ⟨v, assignedName⟩
  | .num v => some ⟨v, assignedName⟩
  | .str s => (jsBigIntOfString s).map (fun v => ⟨v, assignedName⟩)

/-- The host safe-integer limit `Number.MAX_SAFE_INTEGER`. -/
def MAX_SAFE_INTEGER : Int := 2 ^ 53 - 1

/-- The method `value()`: throws a range error when the raw value exceeds
`MAX_SAFE_INTEGER`, otherwise returns the native-number form (exact in the
host for every magnitude at most `2^53`, which covers the non-negative raw
values of the data model). -/
def KnownValue.value (kv : KnownValue) : Except String Int :=
  if kv.rawValue > MAX_SAFE_INTEGER then
    .error "KnownValue exceeds MAX_SAFE_INTEGER. Use valueBigInt() instead."
  else
    .ok kv.rawValue

/-- The method `valueBigInt()`: the exact raw value, always succeeds. -/
def KnownValue.valueBigInt (kv : KnownValue) : Int := kv.rawValue

/-- The method `name()`: the assigned name when one is present, else the
decimal string of the raw value.  The source uses nullish coalescing (`??`),
so a present-but-empty assigned name is returned as is. -/
def KnownValue.name (kv : KnownValue) : String :=
  match kv.assignedName with
  | some s => s
  | none => toString kv.rawValue

/-- The method `equals(other)`: strict equality of the two raw values. -/
def KnownValue.equals (kv other : KnownValue) : Bool :=
  kv.rawValue == other.rawValue

/-- The method `hashCode()`: the raw value masked to its low 32 bits.  For a
`BigInt` the mask `value & 0xffffffffn` uses two's-complement semantics, so it
equals reduction modulo `2^32` (with a result in `[0, 2^32)`), which is how it
is written here. -/
def KnownValue.hashCode (kv : KnownValue) : Int :=
  kv.rawValue % 2 ^ 32

/-- The method `untaggedCbor()`: encode the raw value as one unsigned-integer
item (`cbor(this._value)`, a `BigInt` payload). -/
def KnownValue.untaggedCbor (kv : KnownValue) : CborValue :=
  .unsigned (.big kv.rawValue)

/-- The method `taggedCbor()`: `cbor({tag: TAG_KNOWN_VALUE, value: this._value})`,
a tagged item whose tag is supplied as a native number and whose payload is
the `BigInt` raw value. -/
def KnownValue.taggedCbor (kv : KnownValue) : CborValue :=
  .tagged (.num TAG_KNOWN_VALUE) (.unsigned (.big kv.rawValue))

/-- The static method `fromUntaggedCbor`: requires the unsigned-integer major
type, then constructs a nameless `KnownValue` from the payload, normalizing a
native-number payload to `BigInt`. -/
def KnownValue.fromUntaggedCbor : CborValue → Except String KnownValue
  | .unsigned v => .ok ⟨v.toInt, none⟩
  | _ => .error "Expected unsigned integer for KnownValue"

/-- The static method `fromTaggedCbor`: requires the tagged major type, then
requires the tag to equal the reserved constant — the source compares with
strict inequality against both `BigInt(TAG_KNOWN_VALUE)` and the native
`TAG_KNOWN_VALUE`, so either representation is accepted — and finally
delegates to `fromUntaggedCbor` on the inner payload. -/
def KnownValue.fromTaggedCbor : CborValue → Except String KnownValue
  | .tagged tag value =>
      if tag ≠ .big TAG_KNOWN_VALUE ∧ tag ≠ .num TAG_KNOWN_VALUE then
        .error "Expected tag TAG_KNOWN_VALUE for KnownValue, got another tag"
      else
        KnownValue.fromUntaggedCbor value
  | _ => .error "Expected tagged CBOR for KnownValue, got another major type"

/-- One numeric value as delivered by the external decoder, which may choose
either the native or the arbitrary-precision representation. -/
def JSNum.represent (asBig : Bool) (v : Int) : JSNum :=
  if asBig then .big v else .num v

/-- Modelled from the spec: the external codec's encode-then-decode round trip
(`decodeCbor(cborData(x))`).  The spec declares the raw-bytes and decoded-value
functions a round-trip pair preserving major type, tag and numeric payload,
while the numeric representation after decoding is the decoder's choice —
abstracted here by the two Booleans (one for tags, one for payloads). -/
def decodeEncode (tagBig payloadBig : Bool) : CborValue → CborValue
  | .unsigned v => .unsigned (JSNum.represent payloadBig v.toInt)
  | .tagged t value =>
      .tagged (JSNum.represent tagBig t.toInt) (decodeEncode tagBig payloadBig value)
  | .other => .other

/-- A JavaScript `Map`, modelled extensionally by its lookup function.  The
source observes its maps only through `get`, `set` and `delete` (never through
iteration), and those three observations are captured exactly. -/
def JsMap (κ α : Type) : Type := κ → Option α

/-- The empty map (`new Map()`). -/
def JsMap.empty {κ α : Type} : JsMap κ α := fun _ => none

/-- The lookup `m.get(k)`; `undefined` is `none`. -/
def JsMap.get {κ α : Type} (m : JsMap κ α) (k : κ) : Option α := m k

/-- The update `m.set(k, v)`. -/
def JsMap.set {κ α : Type} [DecidableEq κ] (m : JsMap κ α) (k : κ) (v : α) :
    JsMap κ α :=
  fun x => if x = k then some v else m x

/-- The removal `m.delete(k)`. -/
def JsMap.delete {κ α : Type} [DecidableEq κ] (m : JsMap κ α) (k : κ) :
    JsMap κ α :=
  fun x => if x = k then none else m x

/-- The value of a `KnownValuesStore` object: its two maps, maintained in
lockstep (field names as in the source). -/
structure KnownValuesStore where
  knownValuesByRawValue : JsMap Int KnownValue
  knownValuesByAssignedName : JsMap String KnownValue

/-- A store with two empty maps (`new KnownValuesStore()` before seeding). -/
def KnownValuesStore.empty : KnownValuesStore := ⟨JsMap.empty, JsMap.empty⟩

/-- The method `_insert` (and the public `insert`, which merely delegates):
if an entry already exists for the raw value and carried a non-empty name,
that old name is deleted from the name map; then the new entry is installed
under its raw value, and under its name when that name is present and
non-empty. -/
def KnownValuesStore.insert (s : KnownValuesStore) (knownValue : KnownValue) :
    KnownValuesStore :=
  let existing := s.knownValuesByRawValue.get knownValue.valueBigInt
  let byNameAfterDelete :=
    match existing with
    | some e =>
        match e.assignedName with
        | some oldName =>
            if oldName ≠ "" then s.knownValuesByAssignedName.delete oldName
            else s.knownValuesByAssignedName
        | none => s.knownValuesByAssignedName
    | none => s.knownValuesByAssignedName
  let byValue := s.knownValuesByRawValue.set knownValue.valueBigInt knownValue
  let byName :=
    match knownValue.assignedName with
    | some n => if n ≠ "" then byNameAfterDelete.set n knownValue else byNameAfterDelete
    | none => byNameAfterDelete
  ⟨byValue, byName⟩

/-- The seeding constructor `new KnownValuesStore(knownValues)`: fold `_insert`
over the sequence, later entries winning on collision. -/
def KnownValuesStore.ofKnownValues (knownValues : List KnownValue) :
    KnownValuesStore :=
  knownValues.foldl KnownValuesStore.insert KnownValuesStore.empty

/-- The method `assignedName(knownValue)`: the name on file for that raw value
in this store (optional chaining collapses a missing entry and a nameless
entry alike to `undefined`). -/
def KnownValuesStore.assignedName (s : KnownValuesStore) (kv : KnownValue) :
    Option String :=
  (s.knownValuesByRawValue.get kv.valueBigInt).bind KnownValue.assignedName

/-- The method `name(knownValue)`: the store's assigned name when on file,
else the value's own `name()` (again via nullish coalescing). -/
def KnownValuesStore.name (s : KnownValuesStore) (kv : KnownValue) : String :=
  match s.assignedName kv with
  | some n => n
  | none => kv.name

/-- The method `knownValueNamed(assignedName)`. -/
def KnownValuesStore.knownValueNamed (s : KnownValuesStore)
    (assignedName : String) : Option KnownValue :=
  s.knownValuesByAssignedName.get assignedName

/-- The method `knownValueForValue(rawValue)`; the source normalizes a native
number key to `BigInt` first, and both input forms are modelled as `Int`. -/
def KnownValuesStore.knownValueForValue (s : KnownValuesStore) (rawValue : Int) :
    Option KnownValue :=
  s.knownValuesByRawValue.get rawValue

/-- The method `clone()`: a fresh store whose two maps are copies
(`new Map(m)`) of the current maps.  The map values are copied, so in the heap
model below cloning allocates a fresh cell holding this value. -/
def KnownValuesStore.clone (s : KnownValuesStore) : KnownValuesStore :=
  ⟨s.knownValuesByRawValue, s.knownValuesByAssignedName⟩

/-- A heap of store objects addressed by allocation index.  Aliasing questions
(whether mutating one store can change another) are invisible in a pure value
model, so stores are given explicit identities as references into this heap. -/
abbrev StoreHeap : Type := List KnownValuesStore

/-- Dereference a store address. -/
def StoreHeap.read (σ : StoreHeap) (r : Nat) : KnownValuesStore :=
  σ.getD r KnownValuesStore.empty

/-- The method `clone()` as a heap operation: allocate a fresh cell holding copies of the
two maps of the addressed store, returning the new heap and the new address. -/
def StoreHeap.cloneOp (σ : StoreHeap) (r : Nat) : StoreHeap × Nat :=
  (σ ++ [(σ.read r).clone], σ.length)

/-- The method `insert` as a heap operation mutating the addressed store in place. -/
def StoreHeap.insertOp (σ : StoreHeap) (r : Nat) (kv : KnownValue) : StoreHeap :=
  σ.set r ((σ.read r).insert kv)

/-- A sequence of `insert` calls on the addressed store. -/
def StoreHeap.insertAllOp (σ : StoreHeap) (r : Nat) (kvs : List KnownValue) :
    StoreHeap :=
  kvs.foldl (fun h kv => h.insertOp r kv) σ

/-- The method `knownValueForValue` as a heap observation of the addressed store. -/
def StoreHeap.knownValueForValueOp (σ : StoreHeap) (r : Nat) (rawValue : Int) :
    Option KnownValue :=
  (σ.read r).knownValueForValue rawValue

/-- The stores reachable through the public API: construction from a seed list
(the constructor folds `_insert` over it; the empty seed gives the empty
store), followed by any sequence of `insert` calls. -/
inductive KnownValuesStore.Reachable : KnownValuesStore → Prop where
  | ofKnownValues (l : List KnownValue) :
      Reachable (KnownValuesStore.ofKnownValues l)
  | insert {s : KnownValuesStore} (kv : KnownValue) :
      Reachable s → Reachable (s.insert kv)

/-- The module-level constant `UNIT = new KnownValue(0, '')` — note the empty
string, not an absent name. -/
def UNIT : KnownValue := ⟨0, some ""⟩

/-- The module-level constant `IS_A = new KnownValue(1, 'isA')`. -/
def IS_A : KnownValue := ⟨1, some "isA"⟩

/-- The module-level constant `NOTE = new KnownValue(4, 'note')`. -/
def NOTE : KnownValue := ⟨4, some "note"⟩

/-- The store's bidirectional-consistency invariant, strengthened with
non-emptiness of the name keys (which the insertion code guarantees and the
induction needs): every name entry maps a non-empty key to a `KnownValue`
carrying exactly that key as its assigned name, and that same `KnownValue`
sits in the value map under its raw value. -/
def KnownValuesStore.Wf (s : KnownValuesStore) : Prop :=
  ∀ (n : String) (kv : KnownValue),
    s.knownValuesByAssignedName.get n = some kv →
      kv.assignedName = some n ∧ n ≠ ""
        ∧ s.knownValuesByRawValue.get kv.rawValue = some kv

/-- C8: `equals` returns true exactly when the two raw values are equal, the
assigned names being ignored; in particular `KnownValue(5, "a")` equals
`KnownValue(5, "b")`, and `KnownValue(5)` does not equal `KnownValue(6)`. -/
theorem equals_iff_rawValue_eq (a b : KnownValue) :
    (a.equals b = true ↔ a.rawValue = b.rawValue)
    ∧ KnownValue.equals ⟨5, some "a"⟩ ⟨5, some "b"⟩ = true
    ∧ KnownValue.equals ⟨5, none⟩ ⟨6, none⟩ = false :=
  ⟨by simp [KnownValue.equals], by decide, by decide⟩

/-- Witness for C8 at the claim's concrete pair with differing names. -/
theorem equals_iff_rawValue_eq_witness :
    KnownValue.equals ⟨5, some "a"⟩ ⟨5, some "b"⟩ = true :=
  (equals_iff_rawValue_eq ⟨5, some "a"⟩ ⟨5, some "b"⟩).2.1

/-- C10: equal known values hash equal — `hashCode` is computed from the raw
value alone (its low 32 bits), so `equals` implies equal hash codes and the
assigned names play no part. -/
theorem equals_implies_hashCode_eq (a b : KnownValue) :
    (a.equals b = true → a.hashCode = b.hashCode)
    ∧ (a.rawValue = b.rawValue → a.hashCode = b.hashCode) := by
  constructor
  · intro h
    have hr : a.rawValue = b.rawValue := by simpa [KnownValue.equals] using h
    simp [KnownValue.hashCode, hr]
  · intro h
    simp [KnownValue.hashCode, h]

/-- Witness for C10 at `KnownValue(5, "a")` and `KnownValue(5, "b")`. -/
theorem equals_implies_hashCode_eq_witness :
    KnownValue.hashCode ⟨5, some "a"⟩ = KnownValue.hashCode ⟨5, some "b"⟩ :=
  (equals_implies_hashCode_eq ⟨5, some "a"⟩ ⟨5, some "b"⟩).1 (by decide)

/-- C7: `value()` fails exactly when the raw value exceeds `2^53 - 1`, and on
the data model's non-negative domain otherwise returns the exact native
integer; a raw value of `2^53` makes `value()` fail while `valueBigInt()`
still returns exactly `2^53`. -/
theorem value_safe_integer_boundary (kv : KnownValue) :
    (exceptIsOk kv.value = false ↔ 2 ^ 53 - 1 < kv.rawValue)
    ∧ (0 ≤ kv.rawValue → kv.rawValue ≤ 2 ^ 53 - 1 →
        kv.value = Except.ok kv.rawValue)
    ∧ exceptIsOk (KnownValue.value ⟨2 ^ 53, none⟩) = false
    ∧ KnownValue.valueBigInt ⟨2 ^ 53, none⟩ = 2 ^ 53 := by
  refine ⟨?_, ?_, by decide, rfl⟩
  · by_cases h : kv.rawValue > MAX_SAFE_INTEGER
    · simp only [KnownValue.value, if_pos h, exceptIsOk]
      simpa [MAX_SAFE_INTEGER] using h
    · simp only [KnownValue.value, if_neg h, exceptIsOk]
      simpa [MAX_SAFE_INTEGER] using h
  · intro _ hle
    have h : ¬ kv.rawValue > MAX_SAFE_INTEGER := by
      simpa [MAX_SAFE_INTEGER] using hle
    simp [KnownValue.value, if_neg h]

/-- Witness for C7 at raw value 42, which is within the safe range. -/
theorem value_safe_integer_boundary_witness :
    KnownValue.value ⟨42, none⟩ = Except.ok 42 :=
  (value_safe_integer_boundary ⟨42, none⟩).2.1 (by decide) (by decide)

/-- C1: for every non-negative integer v (the safe-integer range included or
exceeded), pushing `KnownValue(v).taggedCbor()` through the external codec's
encode-then-decode round trip — whichever numeric representations the decoder
picks for the tag and the payload — and then `fromTaggedCbor` reconstructs a
`KnownValue` whose `valueBigInt()` is exactly v. -/
theorem fromTaggedCbor_decodeEncode_roundTrip (v : Int) (hv : 0 ≤ v)
    (tagBig payloadBig : Bool) :
    KnownValue.fromTaggedCbor
        (decodeEncode tagBig payloadBig (KnownValue.taggedCbor ⟨v, none⟩))
      = Except.ok ⟨v, none⟩
    ∧ (⟨v, none⟩ : KnownValue).valueBigInt = v
    ∧ 0 ≤ (⟨v, none⟩ : KnownValue).valueBigInt := by
  refine ⟨?_, rfl, hv⟩
  cases tagBig <;> cases payloadBig <;>
    simp [KnownValue.taggedCbor, decodeEncode, JSNum.represent, JSNum.toInt,
      KnownValue.fromTaggedCbor, KnownValue.fromUntaggedCbor]

/-- Witness for C1 at v = 2^53 + 1, strictly above the safe-integer limit. -/
theorem fromTaggedCbor_decodeEncode_roundTrip_witness :
    KnownValue.fromTaggedCbor (decodeEncode true false
        (KnownValue.taggedCbor ⟨2 ^ 53 + 1, none⟩))
      = Except.ok ⟨2 ^ 53 + 1, none⟩
    ∧ (⟨2 ^ 53 + 1, none⟩ : KnownValue).valueBigInt = 2 ^ 53 + 1 :=
  ⟨(fromTaggedCbor_decodeEncode_roundTrip (2 ^ 53 + 1) (by norm_num) true false).1,
    (fromTaggedCbor_decodeEncode_roundTrip (2 ^ 53 + 1) (by norm_num) true false).2.1⟩

/-- C6: `fromTaggedCbor` fails on every decoded item that is not of the
tagged major type; fails on every tagged item whose tag value differs from the
reserved known-value tag, whatever the inner payload; and on a tagged item
whose tag equals the reserved tag — in either numeric representation — it
delegates to `fromUntaggedCbor` on the inner payload, succeeding exactly when
that payload is an unsigned integer. -/
theorem fromTaggedCbor_tag_check :
    (∀ c : CborValue, c.isTagged = false →
        exceptIsOk (KnownValue.fromTaggedCbor c) = false)
    ∧ (∀ (t : JSNum) (inner : CborValue), t.toInt ≠ TAG_KNOWN_VALUE →
        exceptIsOk (KnownValue.fromTaggedCbor (.tagged t inner)) = false)
    ∧ (∀ (t : JSNum) (inner : CborValue), t.toInt = TAG_KNOWN_VALUE →
        KnownValue.fromTaggedCbor (.tagged t inner)
            = KnownValue.fromUntaggedCbor inner
        ∧ (exceptIsOk (KnownValue.fromTaggedCbor (.tagged t inner)) = true
            ↔ inner.isUnsigned = true)) := by
  refine ⟨?_, ?_, ?_⟩
  · intro c hc
    cases c with
    | unsigned v => rfl
    | tagged t inner => simp [CborValue.isTagged] at hc
    | other => rfl
  · intro t inner ht
    cases t with
    | num x =>
        have hx : x ≠ TAG_KNOWN_VALUE := ht
        simp [KnownValue.fromTaggedCbor, exceptIsOk, hx]
    | big x =>
        have hx : x ≠ TAG_KNOWN_VALUE := ht
        simp [KnownValue.fromTaggedCbor, exceptIsOk, hx]
  · intro t inner ht
    have hdeleg : KnownValue.fromTaggedCbor (.tagged t inner)
        = KnownValue.fromUntaggedCbor inner := by
      cases t with
      | num x =>
          have hx : x = TAG_KNOWN_VALUE := ht
          subst hx
          simp [KnownValue.fromTaggedCbor]
      | big x =>
          have hx : x = TAG_KNOWN_VALUE := ht
          subst hx
          simp [KnownValue.fromTaggedCbor]
    refine ⟨hdeleg, ?_⟩
    rw [hdeleg]
    cases inner with
    | unsigned v => simp [KnownValue.fromUntaggedCbor, exceptIsOk, CborValue.isUnsigned]
    | tagged t2 inner2 => simp [KnownValue.fromUntaggedCbor, exceptIsOk, CborValue.isUnsigned]
    | other => simp [KnownValue.fromUntaggedCbor, exceptIsOk, CborValue.isUnsigned]

/-- Witness for C6: a tagged item carrying tag 99 over a perfectly valid
unsigned payload is still rejected. -/
theorem fromTaggedCbor_tag_check_witness :
    exceptIsOk (KnownValue.fromTaggedCbor
        (.tagged (.num 99) (.unsigned (.num 5)))) = false :=
  fromTaggedCbor_tag_check.2.1 (.num 99) (.unsigned (.num 5)) (by decide)

/-- C2 counterexample: the module constant `UNIT` is constructed with the
empty string as its assigned name, and `name()` returns that empty string
rather than the decimal form "0" — the source uses nullish coalescing, which
does not treat a present-but-empty name as absent. -/
theorem name_of_unit_keeps_empty_string :
    UNIT.assignedName = some "" ∧ UNIT.name = "" ∧ UNIT.name ≠ "0" :=
  ⟨rfl, rfl, by decide⟩

/-- C2 amended: `name()` returns the assigned name whenever one is present —
the empty string included — and falls back to the decimal string of the raw
value only when the assigned name is absent; in particular a `KnownValue` with
no assigned name and raw value 42 has `name()` equal to "42". -/
theorem name_assigned_or_decimal (kv : KnownValue) :
    (∀ s, kv.assignedName = some s → kv.name = s)
    ∧ (kv.assignedName = none → kv.name = toString kv.rawValue)
    ∧ KnownValue.name ⟨42, none⟩ = "42" := by
  refine ⟨?_, ?_, by decide⟩
  · intro s hs
    simp [KnownValue.name, hs]
  · intro h
    simp [KnownValue.name, h]

/-- Witness for the amended C2: a present name is returned as is, and an
absent one falls back to the decimal form. -/
theorem name_assigned_or_decimal_witness :
    KnownValue.name ⟨7, some "x"⟩ = "x"
    ∧ KnownValue.name ⟨9, none⟩ = toString (9 : Int) :=
  ⟨(name_assigned_or_decimal ⟨7, some "x"⟩).1 "x" rfl,
    (name_assigned_or_decimal ⟨9, none⟩).2.1 rfl⟩

/-- C3 counterexample: the constructor performs no non-negativity validation —
constructed from the arbitrary-precision input -1 it yields a `KnownValue`
whose raw value is negative. -/
theorem make_accepts_negative_input :
    KnownValue.make (.big (-1)) none = some ⟨-1, none⟩
    ∧ (⟨-1, none⟩ : KnownValue).rawValue < 0 :=
  ⟨rfl, by decide⟩

/-- C3 amended: constructed from any integer-like input that denotes a
non-negative integer v — native integer, arbitrary-precision integer, or
numeric string — the constructor succeeds, normalizes the input to the
arbitrary-precision representation, and the resulting raw value is exactly v,
hence non-negative; the constructor itself validates nothing, so negative
inputs are not rejected. -/
theorem make_nonneg_input_nonneg_rawValue (i : IntLike) (nm : Option String)
    (v : Int) (hv : i.val = some v) (h0 : 0 ≤ v) :
    KnownValue.make i nm = some ⟨v, nm⟩
    ∧ (0 : Int) ≤ (⟨v, nm⟩ : KnownValue).rawValue := by
  refine ⟨?_, h0⟩
  cases i with
  | num w =>
      simp [IntLike.val] at hv
      subst hv
      rfl
  | big w =>
      simp [IntLike.val] at hv
      subst hv
      rfl
  | str s =>
      simp only [IntLike.val] at hv
      simp [KnownValue.make, hv]

/-- Witness for the amended C3: the numeric string "42" is normalized to the
arbitrary-precision 42, which is non-negative. -/
theorem make_nonneg_input_nonneg_rawValue_witness :
    KnownValue.make (.str "42") none = some ⟨42, none⟩
    ∧ (0 : Int) ≤ (⟨42, none⟩ : KnownValue).rawValue :=
  make_nonneg_input_nonneg_rawValue (.str "42") none 42 (by decide) (by decide)

/-- Setting a key makes lookup of that key return the new entry. -/
theorem JsMap.get_set_self {κ α : Type} [DecidableEq κ] (m : JsMap κ α)
    (k : κ) (v : α) : (m.set k v).get k = some v := by
  simp [JsMap.get, JsMap.set]

/-- Setting a key leaves lookup of any other key unchanged. -/
theorem JsMap.get_set_ne {κ α : Type} [DecidableEq κ] (m : JsMap κ α)
    (k k2 : κ) (v : α) (h : k2 ≠ k) : (m.set k v).get k2 = m.get k2 := by
  simp [JsMap.get, JsMap.set, h]

/-- Deleting a key makes lookup of that key return nothing. -/
theorem JsMap.get_delete_self {κ α : Type} [DecidableEq κ] (m : JsMap κ α)
    (k : κ) : (m.delete k).get k = none := by
  simp [JsMap.get, JsMap.delete]

/-- Deleting a key leaves lookup of any other key unchanged. -/
theorem JsMap.get_delete_ne {κ α : Type} [DecidableEq κ] (m : JsMap κ α)
    (k k2 : κ) (h : k2 ≠ k) : (m.delete k).get k2 = m.get k2 := by
  simp [JsMap.get, JsMap.delete, h]

/-- C4: on any store, inserting `KnownValue(4, "note")` and then
`KnownValue(4, "memo")` leaves "note" resolving to nothing, "memo" resolving
to the newly inserted value, and the entry for raw value 4 carrying the
assigned name "memo"; and in general, when an insert replaces an existing
entry for the same raw value whose old name was non-empty, that old name is
removed from the name map (so unless the new entry reclaims it, it no longer
resolves). -/
theorem insert_rename_on_collision (s : KnownValuesStore) :
    (((s.insert ⟨4, some "note"⟩).insert ⟨4, some "memo"⟩).knownValueNamed "note"
        = none
      ∧ ((s.insert ⟨4, some "note"⟩).insert ⟨4, some "memo"⟩).knownValueNamed "memo"
          = some ⟨4, some "memo"⟩
      ∧ (((s.insert ⟨4, some "note"⟩).insert ⟨4, some "memo"⟩).knownValueForValue 4).map
          KnownValue.assignedName = some (some "memo"))
    ∧ (∀ (kv e : KnownValue) (oldName : String),
        s.knownValuesByRawValue.get kv.rawValue = some e →
        e.assignedName = some oldName → oldName ≠ "" →
        kv.assignedName ≠ some oldName →
        (s.insert kv).knownValueNamed oldName = none) := by
  constructor
  · rcases hE : s.knownValuesByRawValue 4 with _ | e
    · refine ⟨?_, ?_, ?_⟩ <;>
        simp [KnownValuesStore.insert, KnownValuesStore.knownValueNamed,
          KnownValuesStore.knownValueForValue, KnownValue.valueBigInt,
          JsMap.get, JsMap.set, JsMap.delete, hE]
    · rcases hN : e.assignedName with _ | oldName
      · refine ⟨?_, ?_, ?_⟩ <;>
          simp [KnownValuesStore.insert, KnownValuesStore.knownValueNamed,
            KnownValuesStore.knownValueForValue, KnownValue.valueBigInt,
            JsMap.get, JsMap.set, JsMap.delete, hE, hN]
      · by_cases hO : oldName = ""
        · refine ⟨?_, ?_, ?_⟩ <;>
            simp [KnownValuesStore.insert, KnownValuesStore.knownValueNamed,
              KnownValuesStore.knownValueForValue, KnownValue.valueBigInt,
              JsMap.get, JsMap.set, JsMap.delete, hE, hN, hO]
        · refine ⟨?_, ?_, ?_⟩ <;>
            simp [KnownValuesStore.insert, KnownValuesStore.knownValueNamed,
              KnownValuesStore.knownValueForValue, KnownValue.valueBigInt,
              JsMap.get, JsMap.set, JsMap.delete, hE, hN, hO]
  · intro kv e oldName hE hN hO hNe
    have hE' : s.knownValuesByRawValue kv.rawValue = some e := hE
    rcases hA : kv.assignedName with _ | n
    · simp [KnownValuesStore.insert, KnownValuesStore.knownValueNamed,
        KnownValue.valueBigInt, JsMap.get, JsMap.set, JsMap.delete,
        hE', hN, hA, hO]
    · have hnne : n ≠ oldName := by
        intro hcontr
        exact hNe (by simp [hA, hcontr])
      by_cases hn : n = ""
      · simp [KnownValuesStore.insert, KnownValuesStore.knownValueNamed,
          KnownValue.valueBigInt, JsMap.get, JsMap.set, JsMap.delete,
          hE', hN, hA, hO, hn]
      · simp [KnownValuesStore.insert, KnownValuesStore.knownValueNamed,
          KnownValue.valueBigInt, JsMap.get, JsMap.set, JsMap.delete,
          hE', hN, hA, hO, hn, Ne.symm hnne]

/-- Witness for C4: in a store seeded with `KnownValue(7, "x")`, inserting
`KnownValue(7, "y")` makes "x" resolve to nothing; the concrete
note-then-memo sequence on the empty store behaves as claimed. -/
theorem insert_rename_on_collision_witness :
    ((KnownValuesStore.ofKnownValues [⟨7, some "x"⟩]).insert ⟨7, some "y"⟩).knownValueNamed "x"
        = none
    ∧ ((KnownValuesStore.empty.insert ⟨4, some "note"⟩).insert ⟨4, some "memo"⟩).knownValueNamed "note"
        = none :=
  ⟨(insert_rename_on_collision (KnownValuesStore.ofKnownValues [⟨7, some "x"⟩])).2
      ⟨7, some "y"⟩ ⟨7, some "x"⟩ "x" (by decide) (by decide) (by decide) (by decide),
    (insert_rename_on_collision KnownValuesStore.empty).1.1⟩


/-- Auxiliary step for the invariant preservation: a name entry that survives
the insert untouched still satisfies the invariant in the updated store,
provided its key cannot be the name the insert deleted. -/
theorem KnownValuesStore.wf_insert_aux {s : KnownValuesStore} (hs : s.Wf)
    (kv kv1 : KnownValue) (n1 : String)
    (h1 : s.knownValuesByAssignedName.get n1 = some kv1)
    (hdel : ∀ (e : KnownValue) (oldName : String),
        s.knownValuesByRawValue.get kv.rawValue = some e →
        e.assignedName = some oldName → oldName ≠ "" → n1 ≠ oldName) :
    kv1.assignedName = some n1 ∧ n1 ≠ ""
      ∧ (s.insert kv).knownValuesByRawValue.get kv1.rawValue = some kv1 := by
  obtain ⟨c1, c2, c3⟩ := hs n1 kv1 h1
  refine ⟨c1, c2, ?_⟩
  have hval : (s.insert kv).knownValuesByRawValue.get kv1.rawValue
      = (if kv1.rawValue = kv.rawValue then some kv
          else s.knownValuesByRawValue.get kv1.rawValue) := rfl
  rw [hval]
  by_cases hr : kv1.rawValue = kv.rawValue
  · exfalso
    have hE1 : s.knownValuesByRawValue.get kv.rawValue = some kv1 := by
      rw [← hr]; exact c3
    exact hdel kv1 n1 hE1 c1 c2 rfl
  · rw [if_neg hr]; exact c3

/-- Auxiliary step for the invariant preservation: handling of the name map
after the conditional deletion of the replaced entry's old name, before any
new name is installed. -/
theorem KnownValuesStore.wf_mid_aux {s : KnownValuesStore} (hs : s.Wf)
    (kv kv1 : KnownValue) (n1 : String)
    (h1mid : (match s.knownValuesByRawValue kv.rawValue with
       | some e =>
           match e.assignedName with
           | some oldName =>
               if oldName ≠ "" then s.knownValuesByAssignedName.delete oldName
               else s.knownValuesByAssignedName
           | none => s.knownValuesByAssignedName
       | none => s.knownValuesByAssignedName) n1 = some kv1) :
    kv1.assignedName = some n1 ∧ n1 ≠ ""
      ∧ (s.insert kv).knownValuesByRawValue.get kv1.rawValue = some kv1 := by
  rcases hE : s.knownValuesByRawValue kv.rawValue with _ | e
  · rw [hE] at h1mid
    simp only [Option.some.injEq] at h1mid
    exact wf_insert_aux hs kv kv1 n1 h1mid (fun e2 o2 hEx _ _ => by
      rw [show s.knownValuesByRawValue.get kv.rawValue
          = s.knownValuesByRawValue kv.rawValue from rfl, hE] at hEx
      cases hEx)
  · rw [hE] at h1mid
    simp only [Option.some.injEq] at h1mid
    rcases hN : e.assignedName with _ | o
    · rw [hN] at h1mid
      simp only [Option.some.injEq] at h1mid
      exact wf_insert_aux hs kv kv1 n1 h1mid (fun e2 o2 hEx hN2 _ => by
        rw [show s.knownValuesByRawValue.get kv.rawValue
            = s.knownValuesByRawValue kv.rawValue from rfl, hE] at hEx
        cases hEx
        rw [hN] at hN2
        cases hN2)
    · rw [hN] at h1mid
      simp only [Option.some.injEq] at h1mid
      by_cases hO : o = ""
      · rw [if_neg (by simp [hO])] at h1mid
        exact wf_insert_aux hs kv kv1 n1 h1mid (fun e2 o2 hEx hN2 hO2 => by
          rw [show s.knownValuesByRawValue.get kv.rawValue
              = s.knownValuesByRawValue kv.rawValue from rfl, hE] at hEx
          cases hEx
          rw [hN] at hN2
          cases hN2
          exact absurd hO hO2)
      · rw [if_pos hO] at h1mid
        by_cases hno : n1 = o
        · exfalso
          rw [show (s.knownValuesByAssignedName.delete o) n1
              = (if n1 = o then none else s.knownValuesByAssignedName n1) from rfl,
            if_pos hno] at h1mid
          cases h1mid
        · rw [show (s.knownValuesByAssignedName.delete o) n1
              = (if n1 = o then none else s.knownValuesByAssignedName n1) from rfl,
            if_neg hno] at h1mid
          exact wf_insert_aux hs kv kv1 n1 h1mid (fun e2 o2 hEx hN2 _ => by
            rw [show s.knownValuesByRawValue.get kv.rawValue
                = s.knownValuesByRawValue kv.rawValue from rfl, hE] at hEx
            cases hEx
            rw [hN] at hN2
            cases hN2
            exact hno)

/-- Preservation of the store invariant by `_insert`. -/
theorem KnownValuesStore.Wf.insert {s : KnownValuesStore} (hs : s.Wf)
    (kv : KnownValue) : (s.insert kv).Wf := by
  intro n1 kv1 h1
  rcases hA : kv.assignedName with _ | nn
  · refine KnownValuesStore.wf_mid_aux hs kv kv1 n1 ?_
    simpa [KnownValuesStore.insert, KnownValue.valueBigInt, JsMap.get, hA]
      using h1
  · by_cases hn : nn = ""
    · refine KnownValuesStore.wf_mid_aux hs kv kv1 n1 ?_
      simpa [KnownValuesStore.insert, KnownValue.valueBigInt, JsMap.get, hA, hn]
        using h1
    · have h1' : (if n1 = nn then some kv
          else (match s.knownValuesByRawValue kv.rawValue with
            | some e =>
                match e.assignedName with
                | some oldName =>
                    if oldName ≠ "" then s.knownValuesByAssignedName.delete oldName
                    else s.knownValuesByAssignedName
                | none => s.knownValuesByAssignedName
            | none => s.knownValuesByAssignedName) n1) = some kv1 := by
        simpa [KnownValuesStore.insert, KnownValue.valueBigInt, JsMap.get,
          JsMap.set, hA, hn] using h1
      by_cases hnn : n1 = nn
      · rw [if_pos hnn] at h1'
        cases h1'
        subst hnn
        refine ⟨hA, hn, ?_⟩
        rw [show (s.insert kv).knownValuesByRawValue.get kv.rawValue
            = (if kv.rawValue = kv.rawValue then some kv
                else s.knownValuesByRawValue.get kv.rawValue) from rfl,
          if_pos rfl]
      · rw [if_neg hnn] at h1'
        exact KnownValuesStore.wf_mid_aux hs kv kv1 n1 h1'

/-- The empty store is well formed. -/
theorem KnownValuesStore.wf_empty : KnownValuesStore.empty.Wf := by
  intro n kv h
  exact absurd h (by simp [KnownValuesStore.empty, JsMap.get, JsMap.empty])

/-- Folding `_insert` over a seed list preserves the invariant. -/
theorem KnownValuesStore.wf_foldl (l : List KnownValue) :
    ∀ (s : KnownValuesStore), s.Wf → (l.foldl KnownValuesStore.insert s).Wf := by
  induction l with
  | nil => exact fun s hs => hs
  | cons kv l ih => exact fun s hs => ih _ (hs.insert kv)

/-- The seeding constructor produces a well-formed store. -/
theorem KnownValuesStore.wf_ofKnownValues (l : List KnownValue) :
    (KnownValuesStore.ofKnownValues l).Wf :=
  KnownValuesStore.wf_foldl l KnownValuesStore.empty KnownValuesStore.wf_empty

/-- Every reachable store is well formed. -/
theorem KnownValuesStore.Reachable.wf {s : KnownValuesStore}
    (h : s.Reachable) : s.Wf := by
  induction h with
  | ofKnownValues l => exact KnownValuesStore.wf_ofKnownValues l
  | insert kv _ ih => exact ih.insert kv

/-- C5: in every store reachable by any sequence of `insert` calls from an
empty or seeded store, every entry (name, kv) of the name map satisfies:
kv's assigned name equals that name, and the value map holds that same kv
under kv's raw value. -/
theorem reachable_store_maps_consistent {s : KnownValuesStore}
    (hs : s.Reachable) (n : String) (kv : KnownValue)
    (h : s.knownValuesByAssignedName.get n = some kv) :
    kv.assignedName = some n
      ∧ s.knownValuesByRawValue.get kv.rawValue = some kv :=
  ⟨(hs.wf n kv h).1, (hs.wf n kv h).2.2⟩

/-- Witness for C5 on the store seeded with `KnownValue(4, "note")`. -/
theorem reachable_store_maps_consistent_witness :
    (⟨4, some "note"⟩ : KnownValue).assignedName = some "note"
      ∧ (KnownValuesStore.ofKnownValues [⟨4, some "note"⟩]).knownValuesByRawValue.get
          (⟨4, some "note"⟩ : KnownValue).rawValue = some ⟨4, some "note"⟩ :=
  reachable_store_maps_consistent
    (KnownValuesStore.Reachable.ofKnownValues [⟨4, some "note"⟩]) "note"
    ⟨4, some "note"⟩ (by decide)

/-- Mutating the store at one address leaves reads of any other address
unchanged. -/
theorem StoreHeap.read_insertOp_ne (σ : StoreHeap) (i j : Nat)
    (kv : KnownValue) (h : i ≠ j) : (σ.insertOp i kv).read j = σ.read j := by
  simp only [StoreHeap.insertOp, StoreHeap.read, List.getD,
    List.get?_eq_getElem?]
  rw [List.getElem?_set_ne h]

/-- A whole sequence of inserts at one address leaves reads of any other
address unchanged. -/
theorem StoreHeap.read_insertAllOp_ne (kvs : List KnownValue) :
    ∀ (σ : StoreHeap) (i j : Nat), i ≠ j →
      (σ.insertAllOp i kvs).read j = σ.read j := by
  induction kvs with
  | nil => exact fun σ i j _ => rfl
  | cons kv kvs ih =>
      intro σ i j hij
      calc ((σ.insertOp i kv).insertAllOp i kvs).read j
          = (σ.insertOp i kv).read j := ih _ i j hij
        _ = σ.read j := StoreHeap.read_insertOp_ne σ i j kv hij

/-- C9: after `clone()`, any sequence of `insert` calls applied to the clone
leaves every `knownValueForValue` observation on the original store
unchanged, and any sequence applied to the original leaves the clone's
observations unchanged — the clone carries copies of the maps, at a fresh
address. -/
theorem clone_mutation_independent (σ : StoreHeap) (s : Nat)
    (h : s < σ.length) (kvs : List KnownValue) (rawValue : Int) :
    (((σ.cloneOp s).1.insertAllOp (σ.cloneOp s).2 kvs).knownValueForValueOp s rawValue
        = (σ.cloneOp s).1.knownValueForValueOp s rawValue)
    ∧ (((σ.cloneOp s).1.insertAllOp s kvs).knownValueForValueOp (σ.cloneOp s).2 rawValue
        = (σ.cloneOp s).1.knownValueForValueOp (σ.cloneOp s).2 rawValue) := by
  have hne : s ≠ σ.length := Nat.ne_of_lt h
  constructor
  · have hr := StoreHeap.read_insertAllOp_ne kvs (σ.cloneOp s).1
      (σ.cloneOp s).2 s (fun hc => hne hc.symm)
    simp only [StoreHeap.knownValueForValueOp, hr]
  · have hr := StoreHeap.read_insertAllOp_ne kvs (σ.cloneOp s).1
      s (σ.cloneOp s).2 hne
    simp only [StoreHeap.knownValueForValueOp, hr]

/-- Witness for C9: a one-store heap, cloned, with an insert applied to the
clone; the original's lookup at raw value 4 is unchanged. -/
theorem clone_mutation_independent_witness :
    StoreHeap.knownValueForValueOp
        (StoreHeap.insertAllOp
          (StoreHeap.cloneOp [KnownValuesStore.ofKnownValues [⟨4, some "note"⟩]] 0).1
          (StoreHeap.cloneOp [KnownValuesStore.ofKnownValues [⟨4, some "note"⟩]] 0).2
          [⟨4, some "memo"⟩]) 0 4
      = StoreHeap.knownValueForValueOp
          (StoreHeap.cloneOp [KnownValuesStore.ofKnownValues [⟨4, some "note"⟩]] 0).1 0 4 :=
  (clone_mutation_independent [KnownValuesStore.ofKnownValues [⟨4, some "note"⟩]] 0
    (by decide) [⟨4, some "memo"⟩] 4).1
